import Mathlib

/-!
A shallow embedding of the message-analysis and chunked-export core of the
txt-history repository (Rust sources `src/nlp.rs`, `src/utils.rs`,
`src/models.rs`, `src/db.rs`), together with proofs checking the
natural-language specification's claims against it.

Modelling conventions:
* Rust `i32` identifiers become `Int`; byte lengths of strings use
  `String.utf8ByteSize`; `f32` sentiment arithmetic is embedded in `ℚ`
  (every weight in the fixed lexicons is an exact decimal).
* External crates invoked by the code (unicode NFC normalization, the URL
  and emoji regexes backed by Unicode tables, the stop-word list, the
  Porter stemmer, `whatlang` language detection, `serde_json`
  serialization) are fields of the `NlpProcessor` structure: the theorems
  quantify over arbitrary behaviours of those collaborators.
* The character classes `\w` and `\s` of the `regex` crate and Rust
  case-conversion are modelled on their ASCII fragment (`[A-Za-z0-9_]`,
  ASCII whitespace, ASCII case mapping).
* Fallible Rust paths are explicit: `process_messages` returns the mutated
  store plus `Except String`, mirroring `anyhow::Result`; Rust
  `slice::chunks`, which panics on a zero chunk size, returns `none` there.
-/

/-- The `regex` crate's `\w` class (used by `special_chars_regex =
[^\w\s]` in `NlpProcessor::new`) is Unicode-aware — it matches
alphabetic characters of every script, marks, decimal digits, connector
punctuation such as underscore, and join controls.  Its character table
is external data, carried as the `wordChar` field of `NlpProcessor`;
`isWordChar` below is its restriction to ASCII (`[A-Za-z0-9_]`), used to
instantiate that field on the all-ASCII concrete inputs, where the two
agree. -/
def isWordChar (c : Char) : Bool :=
  c.isAlphanum || c = '_'

/-- One character step of `special_chars_regex.replace_all(text, " ")`:
a character that is neither a word character (per the `\w` table `w`)
nor whitespace becomes a single space (the regex class matches exactly
one character at a time). -/
def wordOrSpace (w : Char → Bool) (c : Char) : Char :=
  if w c || c.isWhitespace then c else ' '

/-- `extra_spaces_regex = \s+` replaced by a single space: each maximal
run of whitespace becomes one `' '`.  The boolean records whether the
previous character was whitespace (i.e. we are inside a run). -/
def collapseWs : Bool → List Char → List Char
  | _, [] => []
  | prevWs, c :: rest =>
    if c.isWhitespace then
      if prevWs then collapseWs true rest
      else ' ' :: collapseWs true rest
    else c :: collapseWs false rest

/-- Rust `str::trim`: drop leading and trailing whitespace. -/
def trimEnds (l : List Char) : List Char :=
  ((l.dropWhile Char.isWhitespace).reverse.dropWhile Char.isWhitespace).reverse

/-- Helper of `splitWhitespaceList`: returns the word currently being
built (reading right to left) and the completed words to its right. -/
def splitWsCore : List Char → List Char × List (List Char)
  | [] => ([], [])
  | c :: rest =>
    let p := splitWsCore rest
    if c.isWhitespace then ([], if p.1 = [] then p.2 else p.1 :: p.2)
    else (c :: p.1, p.2)

/-- Rust `str::split_whitespace`: maximal runs of non-whitespace
characters, in order; empty fragments never appear. -/
def splitWhitespaceList (l : List Char) : List (List Char) :=
  let p := splitWsCore l
  if p.1 = [] then p.2 else p.1 :: p.2

/-- `str::split_whitespace` producing `String` words. -/
def splitWs (s : String) : List String :=
  (splitWhitespaceList s.data).map String.mk

/-- Rust `str::to_lowercase` on its ASCII fragment, as applied per word
inside `analyze_sentiment` and at the end of `clean_text`. -/
def lowerStr (s : String) : String :=
  String.mk (s.data.map Char.toLower)

/-- `models.rs::Message`: sender, timestamp (an opaque instant — the
chunkers never inspect it), content. -/
structure Message where
  sender : String
  timestamp : Int
  content : String
deriving DecidableEq

/-- `models.rs::NamedEntity`.  `stop` is the Rust field `end` (a Lean
keyword); offsets are modelled as character offsets into the text the
extractor received (the Rust code uses byte offsets of `str::find`). -/
structure NamedEntity where
  text : String
  entity_type : String
  start : Nat
  stop : Nat
deriving DecidableEq

/-- `models.rs::NlpAnalysis`. -/
structure NlpAnalysis where
  tokens : List String
  entities : List NamedEntity
  sentiment_score : Option ℚ
  language : Option String
  processed_text : String
  lemmatized_text : Option String
deriving DecidableEq

/-- Result of `whatlang::detect` as consumed by the code: whether the
language is English, the confidence, and the language code string. -/
structure LangInfo where
  isEng : Bool
  confidence : ℚ
  code : String

/-- `nlp.rs::NlpProcessor`.  The regex fields of the Rust struct are
fixed patterns whose structure (`special_chars_regex = [^\w\s]` as a
per-character replacement, `extra_spaces_regex = \s+` as run collapse)
is embedded directly in `clean_text`; the Unicode data those patterns
and the case conversions consult is carried as opaque function fields:
`wordChar` is the Unicode-aware `\w` table, `lowerChar` is the
per-character expansion performed by Rust `str::to_lowercase` (a
character lowercases to a short character sequence; characters with no
lowercase mapping map to themselves), and `upperChar` is Rust
`char::is_uppercase`.  The URL/emoji regex replacements and the other
external crates are likewise opaque fields (see the module comment). -/
structure NlpProcessor where
  version : String
  nfc : String → String
  stripUrls : String → String
  stripEmojis : String → String
  wordChar : Char → Bool
  lowerChar : Char → List Char
  upperChar : Char → Bool
  stopwords : String → Bool
  stemmer : String → String
  detect : String → Option LangInfo
  entitiesJson : List NamedEntity → String

/-- `NlpProcessor::clean_text`: NFC, URL removal, emoji removal, special
characters to spaces, whitespace collapse, trim, lowercase — in that
order. -/
def clean_text (p : NlpProcessor) (text : String) : String :=
  let normalized := p.nfc text
  let no_urls := p.stripUrls normalized
  let no_emojis := p.stripEmojis no_urls
  let no_special := no_emojis.data.map (wordOrSpace p.wordChar)
  let normalized_spaces := collapseWs false no_special
  String.mk ((trimEnds normalized_spaces).flatMap p.lowerChar)

/-- `NlpProcessor::tokenize`: split on whitespace, drop empty fragments
and stop words. -/
def tokenize (p : NlpProcessor) (text : String) : List String :=
  (splitWs text).filter (fun s => !s.isEmpty && !p.stopwords s)

/-- `NlpProcessor::lemmatize`: stem each token and join with spaces. -/
def lemmatize (p : NlpProcessor) (tokens : List String) : String :=
  String.intercalate " " (tokens.map p.stemmer)

/-- The fixed positive lexicon of `analyze_sentiment` (weights exact). -/
def positive_words : List (String × ℚ) :=
  [("good", 1), ("great", 3/2), ("excellent", 2), ("amazing", 2),
   ("wonderful", 9/5), ("fantastic", 9/5), ("happy", 6/5), ("joy", 3/2),
   ("love", 2), ("like", 1), ("best", 3/2), ("better", 6/5),
   ("awesome", 9/5), ("perfect", 2), ("brilliant", 9/5),
   ("outstanding", 9/5), ("superb", 9/5), ("marvelous", 9/5),
   ("delightful", 3/2), ("pleased", 6/5), ("satisfied", 1),
   ("excited", 3/2), ("thrilled", 9/5), ("grateful", 3/2),
   ("blessed", 3/2), ("fortunate", 6/5), ("lucky", 1),
   ("successful", 3/2), ("victory", 9/5), ("win", 3/2),
   ("achievement", 3/2)]

/-- The fixed negative lexicon of `analyze_sentiment`. -/
def negative_words : List (String × ℚ) :=
  [("bad", -1), ("terrible", -2), ("awful", -2), ("horrible", -2),
   ("worst", -2), ("hate", -2), ("dislike", -1), ("poor", -6/5),
   ("disappointing", -3/2), ("sad", -6/5), ("angry", -3/2),
   ("upset", -6/5), ("frustrated", -3/2), ("annoyed", -6/5),
   ("irritated", -6/5), ("disgusted", -9/5), ("furious", -2),
   ("devastated", -2), ("depressed", -9/5), ("miserable", -9/5),
   ("hopeless", -9/5), ("desperate", -3/2), ("worried", -6/5),
   ("anxious", -6/5), ("scared", -3/2), ("afraid", -6/5),
   ("disgusting", -9/5), ("revolting", -9/5), ("pathetic", -3/2),
   ("useless", -3/2), ("worthless", -9/5)]

/-- The fixed intensifier lexicon of `analyze_sentiment`. -/
def intensifiers : List (String × ℚ) :=
  [("very", 3/2), ("extremely", 2), ("incredibly", 2), ("absolutely", 2),
   ("completely", 9/5), ("totally", 9/5), ("really", 13/10), ("so", 6/5),
   ("quite", 6/5), ("rather", 11/10), ("somewhat", 4/5),
   ("slightly", 7/10), ("barely", 1/2), ("hardly", 1/2)]

/-- The fixed negation word set of `analyze_sentiment`. -/
def negations : List String :=
  ["not", "no", "never", "none", "nothing", "nobody", "nowhere",
   "neither", "nor"]

/-- The body of the two identical match-adjustment blocks inside the
`analyze_sentiment` loop: apply an intensifier at index `i - 1`, then
negation lookback at `i - 1` or `i - 2` (flip and multiply by `0.8`),
then accumulate into the running `(total, count)` pair. -/
def applySentiment (words : List String) (i : Nat) (weight : ℚ)
    (acc : ℚ × ℚ) : ℚ × ℚ :=
  let s1 :=
    if i > 0 then
      match intensifiers.find? (fun q => q.1 == lowerStr (words.getD (i - 1) "")) with
      | some q => weight * q.2
      | none => weight
    else weight
  let negated :=
    (1 ≤ i ∧ negations.contains (lowerStr (words.getD (i - 1) ""))) ∨
    (2 ≤ i ∧ negations.contains (lowerStr (words.getD (i - 2) "")))
  let s2 := if negated then -s1 * (8/10) else s1
  (acc.1 + s2, acc.2 + 1)

/-- One iteration of the `analyze_sentiment` loop at position `(i, word)`:
the positive-lexicon block followed by the negative-lexicon block. -/
def sentimentStep (words : List String) (acc : ℚ × ℚ) (iw : Nat × String) :
    ℚ × ℚ :=
  let lower_word := lowerStr iw.2
  let acc1 :=
    match positive_words.find? (fun q => q.1 == lower_word) with
    | some q => applySentiment words iw.1 q.2 acc
    | none => acc
  match negative_words.find? (fun q => q.1 == lower_word) with
  | some q => applySentiment words iw.1 q.2 acc1
  | none => acc1

/-- `NlpProcessor::analyze_sentiment`: whitespace-split the text, run the
weighted-lexicon loop with intensifier and negation lookback, then divide
the total by the sentiment-word count and clamp via
`.max(-1.0).min(1.0)`; `0` when no sentiment word occurred. -/
def analyze_sentiment (text : String) : ℚ :=
  let words := splitWs text
  let acc := words.enum.foldl (sentimentStep words) (0, 0)
  if acc.2 = 0 then 0 else min (max (acc.1 / acc.2) (-1)) 1

/-- A token present in either sentiment lexicon (glossary:
"sentiment-bearing token"), after per-word lowercasing. -/
def is_sentiment_word (w : String) : Bool :=
  (positive_words.find? (fun q => q.1 == w)).isSome ||
  (negative_words.find? (fun q => q.1 == w)).isSome

/-- Whether some whitespace-split word of `text` is sentiment-bearing. -/
def has_sentiment_word (text : String) : Bool :=
  (splitWs text).any (fun w => is_sentiment_word (lowerStr w))

/-- The sentence-starter exception list of `extract_entities`. -/
def sentence_starters : List String :=
  ["I", "The", "A", "An", "This", "That"]

/-- Rust `str::find` of a substring, as a character offset: first index
at which `w` is a prefix of the remaining text. -/
def findSub (hay w : List Char) : Option Nat :=
  (List.range (hay.length + 1)).find? (fun i => w.isPrefixOf (hay.drop i))

/-- One iteration of the `extract_entities` loop at position
`(i, word)`: flag a word whose first character is uppercase per Rust
`char::is_uppercase` (the table `u`), unless it is a sentence starter
at index 0. -/
def entityStep (u : Char → Bool) (text : String) (acc : List NamedEntity)
    (iw : Nat × String) : List NamedEntity :=
  if !iw.2.isEmpty && ((iw.2.data.head?.map u).getD false) then
    if iw.1 > 0 || !(sentence_starters.contains iw.2) then
      let start := (findSub text.data iw.2.data).getD 0
      acc ++ [{ text := iw.2, entity_type := "PERSON",
                start := start, stop := start + iw.2.length }]
    else acc
  else acc

/-- `NlpProcessor::extract_entities`: when language detection reports
English with confidence above one half, flag every whitespace-split word
whose first character is uppercase (skipping sentence starters at index
0) as a PERSON entity located by `text.find(word)`. -/
def extract_entities (p : NlpProcessor) (text : String) : List NamedEntity :=
  match p.detect text with
  | none => []
  | some info =>
    if info.isEng && decide ((1:ℚ)/2 < info.confidence) then
      (splitWs text).enum.foldl (entityStep p.upperChar text) []
    else []

/-- `NlpProcessor::process_text`: clean, tokenize, stem, extract
entities, score sentiment, detect language, assemble the record.  The
sentiment and lemmatized fields are always wrapped in `some`. -/
def process_text (p : NlpProcessor) (text : String) : NlpAnalysis :=
  let processed_text := clean_text p text
  let tokens := tokenize p processed_text
  let lemmatized_text := lemmatize p tokens
  let entities := extract_entities p processed_text
  let sentiment_score := analyze_sentiment processed_text
  let language := (p.detect text).map (fun info => info.code)
  { processed_text := processed_text
    tokens := tokens
    entities := entities
    lemmatized_text := some lemmatized_text
    sentiment_score := some sentiment_score
    language := language }

/-- `models.rs::DbMessage`. -/
structure DbMessage where
  id : Int
  imessage_id : String
  text : Option String
  sender : String
  is_from_me : Bool
  date_created : Int
  date_imported : Int
  handle_id : Option String
  service : Option String
  thread_id : Option String
  has_attachments : Bool
  contact_id : Option Int
deriving DecidableEq

/-- `models.rs::DbProcessedMessage`. -/
structure DbProcessedMessage where
  id : Int
  original_message_id : Int
  processed_text : String
  tokens : Option String
  lemmatized_text : Option String
  named_entities : Option String
  sentiment_score : Option ℚ
  processed_at : Int
  processing_version : String
deriving DecidableEq

/-- `models.rs::NewProcessedMessage`. -/
structure NewProcessedMessage where
  original_message_id : Int
  processed_text : String
  tokens : Option String
  lemmatized_text : Option String
  named_entities : Option String
  sentiment_score : Option ℚ
  processing_version : String
deriving DecidableEq

/-- `NlpAnalysis::to_new_processed_message` (`models.rs`); the
`serde_json::to_string` of the entity list is the external
`entitiesJson` field. -/
def NlpAnalysis.to_new_processed_message (p : NlpProcessor) (a : NlpAnalysis)
    (message_id : Int) (version : String) : NewProcessedMessage :=
  { original_message_id := message_id
    processed_text := a.processed_text
    tokens := some (String.intercalate " " a.tokens)
    lemmatized_text := a.lemmatized_text
    named_entities := some (p.entitiesJson a.entities)
    sentiment_score := a.sentiment_score
    processing_version := version }

/-- The SQLite store of `db.rs` as consumed by `process_messages`:
`messages` is row lookup by primary key, `processed` is lookup by
`(original_message_id, processing_version)`, `nextId` is the next
`last_insert_rowid`, and `now` the clock value used for `processed_at`. -/
structure Db where
  messages : Int → Option DbMessage
  processed : Int → String → Option DbProcessedMessage
  nextId : Int
  now : Int

/-- `Database::get_processed_message`. -/
def Db.get_processed_message (db : Db) (message_id : Int) (version : String) :
    Option DbProcessedMessage :=
  db.processed message_id version

/-- `Database::get_message_by_id`. -/
def Db.get_message_by_id (db : Db) (message_id : Int) : Option DbMessage :=
  db.messages message_id

/-- `Database::add_processed_message`: re-check for an existing
`(message, version)` row and return it unchanged if present; otherwise
insert a fresh row stamped with the clock and the next row id. -/
def add_processed_message (db : Db) (new_processed : NewProcessedMessage) :
    Db × DbProcessedMessage :=
  match db.processed new_processed.original_message_id
      new_processed.processing_version with
  | some processed => (db, processed)
  | none =>
    let r : DbProcessedMessage :=
      { id := db.nextId
        original_message_id := new_processed.original_message_id
        processed_text := new_processed.processed_text
        tokens := new_processed.tokens
        lemmatized_text := new_processed.lemmatized_text
        named_entities := new_processed.named_entities
        sentiment_score := new_processed.sentiment_score
        processed_at := db.now
        processing_version := new_processed.processing_version }
    ({ db with
        nextId := db.nextId + 1
        processed := fun m v =>
          if m = new_processed.original_message_id ∧
              v = new_processed.processing_version then some r
          else db.processed m v },
     r)

/-- `NlpProcessor::process_messages`: for each id, return the stored
record if the pair is already processed; otherwise resolve the message
(a missing id aborts the whole batch with an error, mirroring the `?`
on `.context(...)`), skip text-less messages, and analyze-and-store the
rest.  The store is threaded explicitly; on error the store reflects the
work done before the failure. -/
def process_messages (p : NlpProcessor) :
    Db → List Int → Db × Except String (List DbProcessedMessage)
  | db, [] => (db, Except.ok [])
  | db, message_id :: rest =>
    match db.get_processed_message message_id p.version with
    | some existing =>
      let r := process_messages p db rest
      (r.1, r.2.map (fun l => existing :: l))
    | none =>
      match db.get_message_by_id message_id with
      | none =>
        (db, Except.error
          ("Message with ID " ++ toString message_id ++ " not found"))
      | some message =>
        match message.text with
        | none => process_messages p db rest
        | some t =>
          let analysis := process_text p t
          let new_processed :=
            analysis.to_new_processed_message p message_id p.version
          let ins := add_processed_message db new_processed
          let r := process_messages p ins.1 rest
          (r.1, r.2.map (fun l => ins.2 :: l))

/-- Estimated byte size of one message in `chunk_by_size`
(`utils.rs` line 26): `sender.len() + content.len() + 50`. -/
def message_size (m : Message) : Nat :=
  m.sender.utf8ByteSize + m.content.utf8ByteSize + 50

/-- Estimated size of a candidate chunk: sum of its members' estimates
(the running `current_size` of the loop). -/
def chunk_est_size (c : List Message) : Nat :=
  (c.map message_size).sum

/-- The loop of `utils.rs::chunk_by_size`, with the accumulated chunks,
the current chunk and its running size made explicit. -/
def chunkBySizeGo (size_bytes : Nat) :
    List Message → List (List Message) → List Message → Nat →
    List (List Message)
  | [], chunks, current_chunk, _ =>
    if current_chunk = [] then chunks else chunks ++ [current_chunk]
  | message :: rest, chunks, current_chunk, current_size =>
    let msize := message_size message
    if current_size + msize > size_bytes ∧ current_chunk ≠ [] then
      chunkBySizeGo size_bytes rest (chunks ++ [current_chunk]) [message] msize
    else
      chunkBySizeGo size_bytes rest chunks (current_chunk ++ [message])
        (current_size + msize)

/-- `utils.rs::chunk_by_size`, parametrized directly by the byte budget
(the Rust wrapper computes `size_bytes = (size_mb * 1024.0 * 1024.0) as
usize` before the loop; every theorem below quantifies over all byte
budgets, hence over every reachable converted value). -/
def chunk_by_size (messages : List Message) (size_bytes : Nat) :
    List (List Message) :=
  chunkBySizeGo size_bytes messages [] [] 0

/-- Rust `slice::chunks k` unrolled with fuel (`k > 0` makes the list
strictly shrink, so `fuel = length` suffices). -/
def chunksGo (k : Nat) : Nat → List Message → List (List Message)
  | _, [] => []
  | 0, _ => []
  | fuel + 1, l => l.take k :: chunksGo k fuel (l.drop k)

/-- `utils.rs::chunk_by_lines`: `messages.chunks(lines_per_chunk)`.
Rust `slice::chunks` panics when the chunk size is zero; the panic is
modelled as `none`. -/
def chunk_by_lines (messages : List Message) (lines_per_chunk : Nat) :
    Option (List (List Message)) :=
  if lines_per_chunk = 0 then none
  else some (chunksGo lines_per_chunk messages.length messages)

/-! ## Concrete collaborators used by witnesses and counterexamples

`testProc` instantiates the external collaborators at their actual
behaviour on the plain-ASCII inputs of the concrete checks below: NFC is
the identity on ASCII, the URL/emoji regexes match nothing in those
inputs, no input word is an English stop word, and `whatlang` detection
is left undetected (the relevant theorems hold for any detection
result). -/

def testProc : NlpProcessor :=
  { version := "v1"
    nfc := fun s => s
    stripUrls := fun s => s
    stripEmojis := fun s => s
    wordChar := isWordChar
    lowerChar := fun c => [Char.toLower c]
    upperChar := Char.isUpper
    stopwords := fun _ => false
    stemmer := fun s => s
    detect := fun _ => none
    entitiesJson := fun _ => "[]" }

/-- A stored message row with body text, used by the concrete stores. -/
def msgGood : DbMessage :=
  { id := 1, imessage_id := "g1", text := some "good", sender := "al",
    is_from_me := false, date_created := 0, date_imported := 0,
    handle_id := none, service := none, thread_id := none,
    has_attachments := false, contact_id := none }

/-- A second stored message row with body text. -/
def msgFine : DbMessage :=
  { id := 3, imessage_id := "g3", text := some "lucky", sender := "bo",
    is_from_me := false, date_created := 0, date_imported := 0,
    handle_id := none, service := none, thread_id := none,
    has_attachments := false, contact_id := none }

/-- An analysis record already stored for `(message 1, version v1)`. -/
def recW : DbProcessedMessage :=
  { id := 7, original_message_id := 1, processed_text := "good",
    tokens := some "good", lemmatized_text := some "good",
    named_entities := some "[]", sentiment_score := some 1,
    processed_at := 5, processing_version := "v1" }

/-- A store holding messages 1 and 3 and no processed records;
message id 2 does not exist. -/
def dbMissing : Db :=
  { messages := fun i =>
      if i = 1 then some msgGood else if i = 3 then some msgFine else none
    processed := fun _ _ => none
    nextId := 10
    now := 99 }

/-- A store holding message 1 together with an existing processed record
for `(1, v1)`. -/
def dbExisting : Db :=
  { messages := fun i => if i = 1 then some msgGood else none
    processed := fun m v => if m = 1 ∧ v = "v1" then some recW else none
    nextId := 10
    now := 99 }

/-! ## Character-level lemmas for the normalizer -/

theorem charOfNat_toNat (n : Nat) (h : n.isValidChar) :
    (Char.ofNat n).toNat = n := by
  rw [Char.ofNat, dif_pos h]
  rfl

theorem isUpper_iff (c : Char) :
    c.isUpper = true ↔ 65 ≤ c.toNat ∧ c.toNat ≤ 90 := by
  rw [Char.isUpper]
  simp only [Bool.and_eq_true, decide_eq_true_eq, ge_iff_le, UInt32.le_def,
    BitVec.le_def]
  rfl

theorem toLower_isUpper (c : Char) : (Char.toLower c).isUpper = false := by
  rw [Char.toLower]
  split
  · next h =>
    have hv : Nat.isValidChar (c.toNat + 32) := Or.inl (by omega)
    have ht := charOfNat_toNat (c.toNat + 32) hv
    rw [Bool.eq_false_iff]
    intro hu
    rw [isUpper_iff] at hu
    omega
  · next h =>
    rw [Bool.eq_false_iff]
    intro hu
    rw [isUpper_iff] at hu
    rw [Decidable.not_and_iff_or_not] at h
    rcases h with h | h <;> omega

/-! ## Membership lemmas for the normalizer pipeline -/

theorem mem_collapseWs {c : Char} :
    ∀ {b : Bool} {l : List Char}, c ∈ collapseWs b l →
      c = ' ' ∨ (c ∈ l ∧ c.isWhitespace = false) := by
  intro b l
  induction l generalizing b with
  | nil => intro h; cases h
  | cons hd tl ih =>
    intro h
    rw [collapseWs] at h
    by_cases hw : hd.isWhitespace
    · rw [if_pos hw] at h
      split at h
      · rcases ih h with h' | ⟨hm, hws⟩
        · exact Or.inl h'
        · exact Or.inr ⟨List.mem_cons_of_mem _ hm, hws⟩
      · rcases List.mem_cons.mp h with rfl | h'
        · exact Or.inl rfl
        · rcases ih h' with h'' | ⟨hm, hws⟩
          · exact Or.inl h''
          · exact Or.inr ⟨List.mem_cons_of_mem _ hm, hws⟩
    · rw [if_neg hw] at h
      rcases List.mem_cons.mp h with rfl | h'
      · exact Or.inr ⟨List.mem_cons_self _ _, Bool.eq_false_iff.mpr hw⟩
      · rcases ih h' with h'' | ⟨hm, hws⟩
        · exact Or.inl h''
        · exact Or.inr ⟨List.mem_cons_of_mem _ hm, hws⟩

theorem mem_trimEnds {c : Char} {l : List Char} (h : c ∈ trimEnds l) :
    c ∈ l := by
  rw [trimEnds, List.mem_reverse] at h
  have h1 := (List.dropWhile_sublist _).mem h
  rw [List.mem_reverse] at h1
  exact (List.dropWhile_sublist _).mem h1

/-- Every character of every word of `splitWsCore` comes from the input,
and every completed word is non-empty. -/
theorem splitWsCore_spec :
    ∀ l : List Char,
      (∀ c ∈ (splitWsCore l).1, c ∈ l) ∧
      (∀ w ∈ (splitWsCore l).2, w ≠ [] ∧ ∀ c ∈ w, c ∈ l) := by
  intro l
  induction l with
  | nil => exact ⟨fun c h => absurd h (List.not_mem_nil c), fun w h => absurd h (List.not_mem_nil w)⟩
  | cons hd tl ih =>
    rw [splitWsCore]
    by_cases hw : hd.isWhitespace
    · rw [if_pos hw]
      refine ⟨fun c h => absurd h (List.not_mem_nil c), fun w h => ?_⟩
      split at h
      · have := ih.2 w h
        exact ⟨this.1, fun c hc => List.mem_cons_of_mem _ (this.2 c hc)⟩
      · next hne =>
        rcases List.mem_cons.mp h with rfl | h'
        · exact ⟨hne, fun c hc => List.mem_cons_of_mem _ (ih.1 c hc)⟩
        · have := ih.2 w h'
          exact ⟨this.1, fun c hc => List.mem_cons_of_mem _ (this.2 c hc)⟩
    · rw [if_neg hw]
      constructor
      · intro c h
        rcases List.mem_cons.mp h with rfl | h'
        · exact List.mem_cons_self _ _
        · exact List.mem_cons_of_mem _ (ih.1 c h')
      · intro w h
        have := ih.2 w h
        exact ⟨this.1, fun c hc => List.mem_cons_of_mem _ (this.2 c hc)⟩

theorem mem_splitWhitespaceList {w : List Char} {l : List Char}
    (h : w ∈ splitWhitespaceList l) : w ≠ [] ∧ ∀ c ∈ w, c ∈ l := by
  rw [splitWhitespaceList] at h
  split at h
  · exact (splitWsCore_spec l).2 w h
  · next hne =>
    rcases List.mem_cons.mp h with rfl | h'
    · exact ⟨hne, (splitWsCore_spec l).1⟩
    · exact (splitWsCore_spec l).2 w h'

/-- Every character of the output of `clean_text` lies in the lowercase
expansion of some character that is a word character (per the `\\w`
table) or a space: anything else was replaced by a space before
lower-casing. -/
theorem clean_text_chars (p : NlpProcessor) (text : String) :
    ∀ c ∈ (clean_text p text).data,
      ∃ c', (p.wordChar c' = true ∨ c' = ' ') ∧ c ∈ p.lowerChar c' := by
  intro c hc
  rw [clean_text] at hc
  simp only at hc
  rw [List.mem_flatMap] at hc
  obtain ⟨c', hc', hcl⟩ := hc
  refine ⟨c', ?_, hcl⟩
  have h1 := mem_trimEnds hc'
  rcases mem_collapseWs h1 with rfl | ⟨hm, hws⟩
  · exact Or.inr rfl
  · rw [List.mem_map] at hm
    obtain ⟨c'', _, rfl⟩ := hm
    simp only [wordOrSpace] at hws ⊢
    split
    · next hcond =>
      rw [Bool.or_eq_true] at hcond
      rcases hcond with hcw | hcs
      · exact Or.inl hcw
      · rw [if_pos (by rw [hcs, Bool.or_true])] at hws
        exact absurd hcs (Bool.eq_false_iff.mp hws)
    · exact Or.inr rfl

/-! ## C8 — character set of the normalizer output -/

/-- C8 (amended): every character of `clean_text`'s output lies in the
lowercase expansion (Rust `str::to_lowercase`) of a character of the
regex word class `\\w`, or is a single space — i.e. any character that
is neither a word character nor whitespace is replaced by a space before
lower-casing.  The class `\\w` is wider than "alphanumeric": it includes
underscore (see the counterexample), and lowercasing leaves characters
without a lowercase mapping — including some uppercase ones — unchanged,
so the output is not limited to alphanumerics and spaces. -/
theorem c8_clean_text_chars (p : NlpProcessor) (text : String) :
    ∀ c ∈ (clean_text p text).data,
      ∃ c', (p.wordChar c' = true ∨ c' = ' ') ∧ c ∈ p.lowerChar c' :=
  clean_text_chars p text

/-- Witness for `c8_clean_text_chars` at the concrete input `"Ab"`
under the concrete collaborators `testProc`: the character `'a'` of the
output `"ab"` is covered by the theorem's conclusion. -/
theorem c8_clean_text_chars_witness :
    'a' ∈ (clean_text testProc "Ab").data ∧
      ∃ c', (testProc.wordChar c' = true ∨ c' = ' ') ∧
        'a' ∈ testProc.lowerChar c' :=
  ⟨by decide, c8_clean_text_chars testProc "Ab" 'a' (by decide)⟩

/-- C8 counterexample: on input `"_"` (on which NFC and the URL/emoji
regexes are the identity, as `testProc` records) the normalizer returns
`"_"`, and the underscore is neither alphanumeric nor a space — so the
claim that every output character is alphanumeric or a space is false. -/
theorem c8_counterexample :
    clean_text testProc "_" = "_" ∧ '_'.isAlphanum = false ∧ '_' ≠ ' ' := by
  exact ⟨by decide, by decide, by decide⟩

/-! ## C7 — when the entity list is empty -/

theorem mem_enumFrom_snd {α : Type} {q : Nat × α} :
    ∀ {n : Nat} {l : List α}, q ∈ List.enumFrom n l → q.2 ∈ l := by
  intro n l
  induction l generalizing n with
  | nil => intro h; cases h
  | cons hd tl ih =>
    intro h
    rw [List.enumFrom] at h
    rcases List.mem_cons.mp h with rfl | h'
    · exact List.mem_cons_self _ _
    · exact List.mem_cons_of_mem _ (ih h')

theorem mem_enum_snd {α : Type} {q : Nat × α} {l : List α}
    (h : q ∈ l.enum) : q.2 ∈ l :=
  mem_enumFrom_snd h

/-- A word whose first character is not uppercase (per the
`char::is_uppercase` table `u`) is skipped by the entity loop. -/
theorem entityStep_skip (u : Char → Bool) (text : String)
    (acc : List NamedEntity) (iw : Nat × String)
    (h : (iw.2.data.head?.map u).getD false = false) :
    entityStep u text acc iw = acc := by
  rw [entityStep, h, Bool.and_false, if_neg (by simp)]

theorem entity_foldl_nil (u : Char → Bool) (text : String) :
    ∀ (l : List (Nat × String)) (acc : List NamedEntity),
      (∀ q ∈ l, ((q.2 : String).data.head?.map u).getD false = false) →
      l.foldl (entityStep u text) acc = acc := by
  intro l
  induction l with
  | nil => intro acc _; rfl
  | cons hd tl ih =>
    intro acc h
    rw [List.foldl_cons,
      entityStep_skip u text acc hd (h hd (List.mem_cons_self _ _))]
    exact ih acc (fun q hq => h q (List.mem_cons_of_mem _ hq))

/-- If the lowercasing table never produces an uppercase character,
then no whitespace-split word of the normalized text starts with an
uppercase character. -/
theorem clean_text_words_not_upper (p : NlpProcessor)
    (hcase : ∀ c c', c' ∈ p.lowerChar c → p.upperChar c' = false)
    (text : String) :
    ∀ w ∈ splitWs (clean_text p text),
      ((w : String).data.head?.map p.upperChar).getD false = false := by
  intro w hw
  rw [splitWs, List.mem_map] at hw
  obtain ⟨w', hw', rfl⟩ := hw
  obtain ⟨-, hsub⟩ := mem_splitWhitespaceList hw'
  cases w' with
  | nil => rfl
  | cons c cs =>
    have hc : c ∈ (clean_text p text).data := hsub c (List.mem_cons_self _ _)
    obtain ⟨c₀, _, hcl⟩ := clean_text_chars p text c hc
    show (some (p.upperChar c)).getD false = false
    rw [hcase c₀ c hcl]
    rfl

/-- C7 (amended): entity extraction runs on the already lower-cased
output of `clean_text`, so a word can be flagged only if its first
character is still uppercase *after* lowercasing.  Whenever the
lowercase table never yields an uppercase character — which holds for
every character with ordinary case behaviour, in particular all of
ASCII, where each uppercase letter has a lowercase mapping — the
heuristic cannot fire and the entity list of `process_text` is empty for
every input text and every behaviour of the language detector.  (The
unconditional claim is false of the program: uppercase characters with
no lowercase mapping survive `to_lowercase` unchanged, so the heuristic
can fire; see the counterexample.) -/
theorem c7_entities_empty_of_lowercasing (p : NlpProcessor)
    (hcase : ∀ c c', c' ∈ p.lowerChar c → p.upperChar c' = false)
    (text : String) : (process_text p text).entities = [] := by
  show extract_entities p (clean_text p text) = []
  rw [extract_entities]
  cases p.detect (clean_text p text) with
  | none => rfl
  | some info =>
    simp only
    split
    · apply entity_foldl_nil
      intro q hq
      exact clean_text_words_not_upper p hcase text q.2 (mem_enum_snd hq)
    · rfl

/-- Witness for `c7_entities_empty_of_lowercasing` at the concrete
input `"Ab"` under `testProc`, whose lowercase table is the ASCII one:
the hypothesis is discharged by `toLower_isUpper`. -/
theorem c7_entities_empty_of_lowercasing_witness :
    (process_text testProc "Ab").entities = [] :=
  c7_entities_empty_of_lowercasing testProc
    (fun c c' h => by
      change c' ∈ [Char.toLower c] at h
      rw [List.mem_singleton] at h
      rw [h]
      exact toLower_isUpper c) "Ab"

/-- Concrete collaborators recording the real Unicode behaviour on the
characters of the C7 counterexample input `"𝐀b"`: U+1D400
(MATHEMATICAL BOLD CAPITAL A) is `Alphabetic` — hence matched by the
Unicode-aware `\\w` and preserved by `[^\\w\\s]` — has `Uppercase = Yes`
(so `char::is_uppercase` is true), and has no lowercase mapping (so
`to_lowercase` leaves it unchanged); it is NFC-stable, matches neither
the URL regex nor `\\p{Emoji}`, and the detector reports English at
confidence 0.9, as `whatlang` does on an English sentence. -/
def uniProc : NlpProcessor :=
  { version := "v1"
    nfc := fun s => s
    stripUrls := fun s => s
    stripEmojis := fun s => s
    wordChar := fun c => isWordChar c || c = '𝐀'
    lowerChar := fun c => [Char.toLower c]
    upperChar := fun c => c.isUpper || c = '𝐀'
    stopwords := fun _ => false
    stemmer := fun s => s
    detect := fun _ => some { isEng := true, confidence := 9/10, code := "eng" }
    entitiesJson := fun _ => "[]" }

/-- C7 counterexample: on the input `"𝐀b"` the capitalized-word
heuristic *does* fire — U+1D400 survives normalization and lowercasing
as an uppercase word character, so `process_text` returns a non-empty
entity list, refuting the claim that the entity list is always empty. -/
theorem c7_counterexample :
    (process_text uniProc "𝐀b").entities =
      [{ text := "𝐀b", entity_type := "PERSON",
         start := 0, stop := 2 }] ∧
    (process_text uniProc "𝐀b").entities ≠ [] := by
  constructor
  · with_unfolding_all rfl
  · rw [show (process_text uniProc "𝐀b").entities =
      [{ text := "𝐀b", entity_type := "PERSON",
         start := 0, stop := 2 }] from by with_unfolding_all rfl]
    exact List.cons_ne_nil _ _

/-! ## C9 — sentiment score is always present; zero without sentiment words -/

/-- A word that is not sentiment-bearing leaves the running total and
count of the sentiment loop unchanged. -/
theorem sentimentStep_skip (words : List String) (acc : ℚ × ℚ)
    (iw : Nat × String)
    (h : is_sentiment_word (lowerStr iw.2) = false) :
    sentimentStep words acc iw = acc := by
  rw [is_sentiment_word, Bool.or_eq_false_iff] at h
  obtain ⟨hp, hn⟩ := h
  rw [sentimentStep]
  cases hfp : positive_words.find? (fun q => q.1 == lowerStr iw.2) with
  | some q => rw [hfp] at hp; cases hp
  | none =>
    cases hfn : negative_words.find? (fun q => q.1 == lowerStr iw.2) with
    | some q => rw [hfn] at hn; cases hn
    | none => simp only [hfp, hfn]

theorem sentiment_foldl_nil (words : List String) :
    ∀ (l : List (Nat × String)) (acc : ℚ × ℚ),
      (∀ q ∈ l, is_sentiment_word (lowerStr (q.2 : String)) = false) →
      l.foldl (sentimentStep words) acc = acc := by
  intro l
  induction l with
  | nil => intro acc _; rfl
  | cons hd tl ih =>
    intro acc h
    rw [List.foldl_cons,
      sentimentStep_skip words acc hd (h hd (List.mem_cons_self _ _))]
    exact ih acc (fun q hq => h q (List.mem_cons_of_mem _ hq))

/-- When the text has no sentiment-bearing token the final score of
`analyze_sentiment` is exactly `0` (the `word_count == 0` branch). -/
theorem analyze_sentiment_eq_zero (text : String)
    (h : has_sentiment_word text = false) : analyze_sentiment text = 0 := by
  rw [has_sentiment_word, List.any_eq_false] at h
  simp only [analyze_sentiment]
  rw [sentiment_foldl_nil (splitWs text) (splitWs text).enum (0, 0)
    (fun q hq => Bool.eq_false_iff.mpr (h q.2 (mem_enum_snd hq)))]
  rw [if_pos rfl]

/-- C9 (amended): for every input whose normalized text contains no
sentiment-bearing token, the sentiment score field of the produced
analysis is *present* and equal to `some 0` — the pipeline wraps the
score in `Some` unconditionally, so the field is never absent (the claim
that it is absent fails; see the counterexample). -/
theorem c9_sentiment_present_zero (p : NlpProcessor) (text : String)
    (h : has_sentiment_word (clean_text p text) = false) :
    (process_text p text).sentiment_score = some 0 := by
  show some (analyze_sentiment (clean_text p text)) = some 0
  rw [analyze_sentiment_eq_zero (clean_text p text) h]

/-- Witness for `c9_sentiment_present_zero` at the concrete input
`"sky"` under the concrete collaborators `testProc`. -/
theorem c9_sentiment_present_zero_witness :
    has_sentiment_word (clean_text testProc "sky") = false ∧
      (process_text testProc "sky").sentiment_score = some 0 := by
  refine ⟨by decide, c9_sentiment_present_zero testProc "sky" (by decide)⟩

/-- C9 counterexample: `"sky"` has no sentiment-bearing token, yet the
record's sentiment field is `some 0`, not absent (`none`) as claimed. -/
theorem c9_counterexample :
    has_sentiment_word (clean_text testProc "sky") = false ∧
      (process_text testProc "sky").sentiment_score ≠ none := by
  constructor
  · decide
  · have h : (process_text testProc "sky").sentiment_score = some 0 := by
      with_unfolding_all rfl
    rw [h]
    exact Option.some_ne_none 0

/-! ## C5 — negation flips and dampens by 0.8 -/

/-- C5: the sentiment score of the two-token input `"not good"` is the
score of the single-token input `"good"` negated and multiplied by
`0.8`: the negation lookback at distance 1 fires on `"not"`, flipping
the weight of `"good"` and damping it by the factor `8/10`. -/
theorem c5_negation_scales :
    analyze_sentiment "not good" =
      -(analyze_sentiment "good") * (8/10) := by
  with_unfolding_all rfl

/-! ## C2, C4, C10 — chunking -/

theorem chunkBySizeGo_flatten (B : Nat) :
    ∀ (rest : List Message) (chunks : List (List Message))
      (current : List Message) (csize : Nat),
      (chunkBySizeGo B rest chunks current csize).flatten =
        chunks.flatten ++ current ++ rest := by
  intro rest
  induction rest with
  | nil =>
    intro chunks current csize
    rw [chunkBySizeGo]
    split
    · next h => rw [h]; simp
    · rw [List.flatten_append]; simp
  | cons m tl ih =>
    intro chunks current csize
    rw [chunkBySizeGo]
    split
    · rw [ih, List.flatten_append]
      simp
    · rw [ih]
      simp

/-- C2 helper: every chunk accumulated by the size-chunking loop is
non-empty provided the already-closed chunks are. -/
theorem chunkBySizeGo_ne_nil (B : Nat) :
    ∀ (rest : List Message) (chunks : List (List Message))
      (current : List Message) (csize : Nat),
      (∀ c ∈ chunks, c ≠ []) →
      ∀ c ∈ chunkBySizeGo B rest chunks current csize, c ≠ [] := by
  intro rest
  induction rest with
  | nil =>
    intro chunks current csize hch c hc
    rw [chunkBySizeGo] at hc
    split at hc
    · exact hch c hc
    · next hcur =>
      rcases List.mem_append.mp hc with h | h
      · exact hch c h
      · rw [List.mem_singleton] at h
        exact h ▸ hcur
  | cons m tl ih =>
    intro chunks current csize hch c hc
    rw [chunkBySizeGo] at hc
    split at hc
    · next hcond =>
      refine ih _ _ _ ?_ c hc
      intro c' hc'
      rcases List.mem_append.mp hc' with h | h
      · exact hch c' h
      · rw [List.mem_singleton] at h
        exact h ▸ hcond.2
    · refine ih _ _ _ hch c hc

theorem chunksGo_nil (k : Nat) : ∀ fuel : Nat, chunksGo k fuel [] = [] := by
  intro fuel
  cases fuel <;> rfl

theorem chunksGo_flatten (k : Nat) (hk : 0 < k) :
    ∀ (fuel : Nat) (l : List Message), l.length ≤ fuel →
      (chunksGo k fuel l).flatten = l := by
  intro fuel
  induction fuel with
  | zero =>
    intro l hl
    rw [List.length_eq_zero.mp (Nat.le_zero.mp hl)]
    rfl
  | succ n ih =>
    intro l hl
    cases l with
    | nil => rfl
    | cons x xs =>
      have hlen : ((x :: xs).drop k).length ≤ n := by
        rw [List.length_drop, List.length_cons]
        rw [List.length_cons] at hl
        omega
      rw [chunksGo, List.flatten_cons, ih ((x :: xs).drop k) hlen,
        List.take_append_drop]
      exact fun h => List.noConfusion h

theorem chunksGo_ne_nil (k : Nat) (hk : 0 < k) :
    ∀ (fuel : Nat) (l : List Message),
      ∀ c ∈ chunksGo k fuel l, c ≠ [] := by
  intro fuel
  induction fuel with
  | zero =>
    intro l c hc
    cases l with
    | nil => cases hc
    | cons x xs => cases hc
  | succ n ih =>
    intro l c hc
    cases l with
    | nil => cases hc
    | cons x xs =>
      rw [chunksGo] at hc
      rcases List.mem_cons.mp hc with h | h'
      · subst h
        cases k with
        | zero => omega
        | succ j =>
          rw [List.take_succ_cons]
          exact List.cons_ne_nil _ _
      · exact ih _ c h'
      · exact fun h => List.noConfusion h

/-- C2: for every input message sequence and both chunking strategies
(size-based with any byte budget, count-based with any positive count),
concatenating the returned chunks in index order yields exactly the
original sequence, and every returned chunk is non-empty. -/
theorem c2_chunks_concat_original (msgs : List Message) (B k : Nat)
    (hk : 0 < k) :
    (chunk_by_size msgs B).flatten = msgs ∧
    (∀ c ∈ chunk_by_size msgs B, c ≠ []) ∧
    ∃ cs, chunk_by_lines msgs k = some cs ∧ cs.flatten = msgs ∧
      ∀ c ∈ cs, c ≠ [] := by
  refine ⟨?_, ?_, ?_⟩
  · rw [chunk_by_size, chunkBySizeGo_flatten]
    rfl
  · intro c hc
    exact chunkBySizeGo_ne_nil B msgs [] [] 0
      (fun c' hc' => absurd hc' (List.not_mem_nil c')) c hc
  · refine ⟨chunksGo k msgs.length msgs, ?_, ?_, ?_⟩
    · rw [chunk_by_lines, if_neg (by omega)]
    · exact chunksGo_flatten k hk msgs.length msgs le_rfl
    · exact chunksGo_ne_nil k hk msgs.length msgs

/-- Witness for `c2_chunks_concat_original` at a two-message input,
budget 60 bytes and count 1. -/
theorem c2_chunks_concat_original_witness :
    0 < 1 ∧
    ((chunk_by_size [⟨"a", 0, "b"⟩, ⟨"a", 0, "b"⟩] 60).flatten =
        [⟨"a", 0, "b"⟩, ⟨"a", 0, "b"⟩] ∧
      (∀ c ∈ chunk_by_size [⟨"a", 0, "b"⟩, ⟨"a", 0, "b"⟩] 60, c ≠ []) ∧
      ∃ cs, chunk_by_lines [⟨"a", 0, "b"⟩, ⟨"a", 0, "b"⟩] 1 = some cs ∧
        cs.flatten = [⟨"a", 0, "b"⟩, ⟨"a", 0, "b"⟩] ∧ ∀ c ∈ cs, c ≠ []) :=
  ⟨by decide,
   c2_chunks_concat_original [⟨"a", 0, "b"⟩, ⟨"a", 0, "b"⟩] 60 1 (by decide)⟩

theorem chunk_est_size_append (c : List Message) (m : Message) :
    chunk_est_size (c ++ [m]) = chunk_est_size c + message_size m := by
  rw [chunk_est_size, chunk_est_size, List.map_append, List.sum_append]
  simp

/-- C4 helper: invariant of the size-chunking loop — the running size is
the estimate of the current chunk, and every chunk of length at least 2
(closed or current) fits within the budget. -/
theorem chunkBySizeGo_budget (B : Nat) :
    ∀ (rest : List Message) (chunks : List (List Message))
      (current : List Message) (csize : Nat),
      (∀ c ∈ chunks, 2 ≤ c.length → chunk_est_size c ≤ B) →
      csize = chunk_est_size current →
      (2 ≤ current.length → csize ≤ B) →
      ∀ c ∈ chunkBySizeGo B rest chunks current csize,
        2 ≤ c.length → chunk_est_size c ≤ B := by
  intro rest
  induction rest with
  | nil =>
    intro chunks current csize hch hsz hcur c hc hlen
    rw [chunkBySizeGo] at hc
    split at hc
    · exact hch c hc hlen
    · rcases List.mem_append.mp hc with h | h
      · exact hch c h hlen
      · rw [List.mem_singleton] at h
        subst h
        exact hsz ▸ hcur hlen
  | cons m tl ih =>
    intro chunks current csize hch hsz hcur c hc hlen
    rw [chunkBySizeGo] at hc
    split at hc
    · next hcond =>
      refine ih _ _ _ ?_ ?_ ?_ c hc hlen
      · intro c' hc' hlen'
        rcases List.mem_append.mp hc' with h | h
        · exact hch c' h hlen'
        · rw [List.mem_singleton] at h
          subst h
          exact hsz ▸ hcur hlen'
      · rw [chunk_est_size, List.map_singleton, List.sum_singleton]
      · intro h2
        rw [List.length_singleton] at h2
        omega
    · next hcond =>
      rw [Decidable.not_and_iff_or_not] at hcond
      refine ih _ _ _ hch ?_ ?_ c hc hlen
      · rw [chunk_est_size_append, hsz]
      · intro h2
        rcases hcond with h | h
        · omega
        · rw [Decidable.not_not] at h
          subst h
          rw [List.nil_append, List.length_singleton] at h2
          omega

/-- C4: for size-based chunking with byte budget `B`, every returned
chunk of length at least 2 has estimated size (the sum over its elements
of `sender` length + `content` length + the fixed overhead 50) at most
`B`; only a single-element chunk may exceed the budget. -/
theorem c4_chunk_budget (msgs : List Message) (B : Nat)
    (c : List Message) (hc : c ∈ chunk_by_size msgs B)
    (hlen : 2 ≤ c.length) : chunk_est_size c ≤ B := by
  refine chunkBySizeGo_budget B msgs [] [] 0
    (fun c' hc' => absurd hc' (List.not_mem_nil c')) rfl ?_ c hc hlen
  intro h
  cases h

/-- Witness for `c4_chunk_budget`: the two-message chunk produced with
budget 200 satisfies the estimate bound. -/
theorem c4_chunk_budget_witness :
    [(⟨"a", 0, "b"⟩ : Message), ⟨"a", 0, "b"⟩] ∈
        chunk_by_size [⟨"a", 0, "b"⟩, ⟨"a", 0, "b"⟩] 200 ∧
      2 ≤ ([(⟨"a", 0, "b"⟩ : Message), ⟨"a", 0, "b"⟩] : List Message).length ∧
      chunk_est_size [(⟨"a", 0, "b"⟩ : Message), ⟨"a", 0, "b"⟩] ≤ 200 :=
  ⟨by decide, by decide,
   c4_chunk_budget [⟨"a", 0, "b"⟩, ⟨"a", 0, "b"⟩] 200
     [⟨"a", 0, "b"⟩, ⟨"a", 0, "b"⟩] (by decide) (by decide)⟩

/-- C10: count-based chunking is total only for a positive chunk size:
with `lines_per_chunk = 0` the underlying Rust `slice::chunks` panics
(modelled as `none`) for every input, including the empty list, while
any positive size always yields a result. -/
theorem c10_chunk_by_lines_zero :
    (∀ msgs : List Message, chunk_by_lines msgs 0 = none) ∧
    (∀ (msgs : List Message) (k : Nat), 0 < k →
      (chunk_by_lines msgs k).isSome = true) := by
  constructor
  · intro msgs
    rw [chunk_by_lines, if_pos rfl]
  · intro msgs k hk
    rw [chunk_by_lines, if_neg (by omega)]
    rfl

/-- Witness for `c10_chunk_by_lines_zero` at the empty input and the
inputs 0 and 1. -/
theorem c10_chunk_by_lines_zero_witness :
    chunk_by_lines [] 0 = none ∧
      (0 < 1 ∧ (chunk_by_lines [] 1).isSome = true) :=
  ⟨c10_chunk_by_lines_zero.1 [], by decide,
   c10_chunk_by_lines_zero.2 [] 1 (by decide)⟩

/-! ## Branch equations for `process_messages` -/

theorem pm_nil (p : NlpProcessor) (db : Db) :
    process_messages p db [] = (db, Except.ok []) := rfl

theorem pm_cons_existing (p : NlpProcessor) (db : Db) (message_id : Int)
    (rest : List Int) (existing : DbProcessedMessage)
    (h : db.get_processed_message message_id p.version = some existing) :
    process_messages p db (message_id :: rest) =
      ((process_messages p db rest).1,
       (process_messages p db rest).2.map (fun l => existing :: l)) := by
  rw [process_messages, h]

theorem pm_cons_missing (p : NlpProcessor) (db : Db) (message_id : Int)
    (rest : List Int)
    (h1 : db.get_processed_message message_id p.version = none)
    (h2 : db.get_message_by_id message_id = none) :
    process_messages p db (message_id :: rest) =
      (db, Except.error
        ("Message with ID " ++ toString message_id ++ " not found")) := by
  rw [process_messages, h1, h2]

theorem pm_cons_skip (p : NlpProcessor) (db : Db) (message_id : Int)
    (rest : List Int) (message : DbMessage)
    (h1 : db.get_processed_message message_id p.version = none)
    (h2 : db.get_message_by_id message_id = some message)
    (h3 : message.text = none) :
    process_messages p db (message_id :: rest) =
      process_messages p db rest := by
  rw [process_messages, h1, h2]
  simp only [h3]

theorem pm_cons_insert (p : NlpProcessor) (db : Db) (message_id : Int)
    (rest : List Int) (message : DbMessage) (t : String)
    (h1 : db.get_processed_message message_id p.version = none)
    (h2 : db.get_message_by_id message_id = some message)
    (h3 : message.text = some t) :
    process_messages p db (message_id :: rest) =
      ((process_messages p
          (add_processed_message db
            ((process_text p t).to_new_processed_message p message_id
              p.version)).1 rest).1,
       (process_messages p
          (add_processed_message db
            ((process_text p t).to_new_processed_message p message_id
              p.version)).1 rest).2.map
         (fun l =>
           (add_processed_message db
             ((process_text p t).to_new_processed_message p message_id
               p.version)).2 :: l)) := by
  rw [process_messages, h1, h2]
  simp only [h3]

/-! ## Store-preservation lemmas -/

/-- `add_processed_message` never overwrites an existing record: any
stored `(m, v)` record survives an insertion unchanged. -/
theorem add_preserves_processed (db : Db) (np : NewProcessedMessage)
    (m : Int) (v : String) (r : DbProcessedMessage)
    (h : db.processed m v = some r) :
    (add_processed_message db np).1.processed m v = some r := by
  rw [add_processed_message]
  cases hx : db.processed np.original_message_id np.processing_version with
  | some q => exact h
  | none =>
    show (if m = np.original_message_id ∧ v = np.processing_version
        then _ else db.processed m v) = some r
    split
    · next hc =>
      rw [hc.1, hc.2] at h
      rw [h] at hx
      cases hx
    · exact h

/-- `add_processed_message` leaves the message table untouched. -/
theorem add_preserves_messages (db : Db) (np : NewProcessedMessage) :
    (add_processed_message db np).1.messages = db.messages := by
  rw [add_processed_message]
  cases hx : db.processed np.original_message_id np.processing_version <;> rfl

/-- An insertion keyed at a different message id leaves the `(m, v)`
lookup unchanged. -/
theorem add_other_processed (db : Db) (np : NewProcessedMessage)
    (m : Int) (v : String) (hne : np.original_message_id ≠ m) :
    (add_processed_message db np).1.processed m v = db.processed m v := by
  rw [add_processed_message]
  cases hx : db.processed np.original_message_id np.processing_version with
  | some q => rfl
  | none =>
    show (if m = np.original_message_id ∧ v = np.processing_version
        then _ else db.processed m v) = db.processed m v
    rw [if_neg]
    intro hc
    exact hne hc.1.symm

/-- `process_messages` never overwrites an existing `(m, v)` record. -/
theorem pm_preserves_processed (p : NlpProcessor) (ids : List Int) :
    ∀ (db : Db) (m : Int) (v : String) (r : DbProcessedMessage),
      db.processed m v = some r →
      (process_messages p db ids).1.processed m v = some r := by
  induction ids with
  | nil => intro db m v r h; exact h
  | cons message_id rest ih =>
    intro db m v r h
    cases h1 : db.get_processed_message message_id p.version with
    | some existing =>
      rw [pm_cons_existing p db message_id rest existing h1]
      exact ih db m v r h
    | none =>
      cases h2 : db.get_message_by_id message_id with
      | none =>
        rw [pm_cons_missing p db message_id rest h1 h2]
        exact h
      | some message =>
        cases h3 : message.text with
        | none =>
          rw [pm_cons_skip p db message_id rest message h1 h2 h3]
          exact ih db m v r h
        | some t =>
          rw [pm_cons_insert p db message_id rest message t h1 h2 h3]
          exact ih _ m v r (add_preserves_processed db _ m v r h)

/-- `process_messages` never touches the message table. -/
theorem pm_preserves_messages (p : NlpProcessor) (ids : List Int) :
    ∀ db : Db, (process_messages p db ids).1.messages = db.messages := by
  induction ids with
  | nil => intro db; rfl
  | cons message_id rest ih =>
    intro db
    cases h1 : db.get_processed_message message_id p.version with
    | some existing =>
      rw [pm_cons_existing p db message_id rest existing h1]
      exact ih db
    | none =>
      cases h2 : db.get_message_by_id message_id with
      | none => rw [pm_cons_missing p db message_id rest h1 h2]
      | some message =>
        cases h3 : message.text with
        | none =>
          rw [pm_cons_skip p db message_id rest message h1 h2 h3]
          exact ih db
        | some t =>
          rw [pm_cons_insert p db message_id rest message t h1 h2 h3]
          rw [ih _, add_preserves_messages]

/-- A pair `(m, v)` with no stored record and no message row stays
unprocessed across a whole batch: insertions are keyed at ids whose
message row exists. -/
theorem pm_preserves_unprocessed (p : NlpProcessor) (ids : List Int) :
    ∀ (db : Db) (m : Int) (v : String),
      db.messages m = none → db.processed m v = none →
      (process_messages p db ids).1.processed m v = none := by
  induction ids with
  | nil => intro db m v _ h; exact h
  | cons message_id rest ih =>
    intro db m v hm h
    cases h1 : db.get_processed_message message_id p.version with
    | some existing =>
      rw [pm_cons_existing p db message_id rest existing h1]
      exact ih db m v hm h
    | none =>
      cases h2 : db.get_message_by_id message_id with
      | none =>
        rw [pm_cons_missing p db message_id rest h1 h2]
        exact h
      | some message =>
        cases h3 : message.text with
        | none =>
          rw [pm_cons_skip p db message_id rest message h1 h2 h3]
          exact ih db m v hm h
        | some t =>
          rw [pm_cons_insert p db message_id rest message t h1 h2 h3]
          have hne : message_id ≠ m := by
            intro e
            rw [e] at h2
            rw [Db.get_message_by_id, hm] at h2
            cases h2
          refine ih _ m v ?_ ?_
          · rw [add_preserves_messages]
            exact hm
          · rw [add_other_processed db _ m v hne, h]

/-- Splitting a batch: processing `l₁ ++ l₂` first processes `l₁`; on
success it continues with `l₂` from the resulting store and prepends the
records of `l₁`, and on failure the error and store of `l₁` stand. -/
theorem pm_append (p : NlpProcessor) (l₁ : List Int) :
    ∀ (db : Db) (l₂ : List Int),
      process_messages p db (l₁ ++ l₂) =
        (match process_messages p db l₁ with
         | (db₁, Except.ok recs₁) =>
           ((process_messages p db₁ l₂).1,
            (process_messages p db₁ l₂).2.map (fun recs₂ => recs₁ ++ recs₂))
         | (db₁, Except.error e) => (db₁, Except.error e)) := by
  induction l₁ with
  | nil =>
    intro db l₂
    rw [List.nil_append, pm_nil]
    show _ = ((process_messages p db l₂).1,
      (process_messages p db l₂).2.map (fun recs₂ => [] ++ recs₂))
    cases hq : (process_messages p db l₂).2 with
    | ok l =>
      rw [show process_messages p db l₂ =
        ((process_messages p db l₂).1, (process_messages p db l₂).2) from rfl,
        hq]
      simp [Except.map]
    | error e =>
      rw [show process_messages p db l₂ =
        ((process_messages p db l₂).1, (process_messages p db l₂).2) from rfl,
        hq]
      simp [Except.map]
  | cons message_id rest ih =>
    intro db l₂
    rw [List.cons_append]
    cases h1 : db.get_processed_message message_id p.version with
    | some existing =>
      rw [pm_cons_existing p db message_id _ existing h1,
        pm_cons_existing p db message_id rest existing h1, ih db l₂]
      cases hq : process_messages p db rest with
      | mk db₁ res₁ =>
        cases res₁ with
        | ok recs₁ =>
          cases hr : (process_messages p db₁ l₂).2 with
          | ok recs₂ => simp [hr, Except.map]
          | error e => simp [hr, Except.map]
        | error e => simp [Except.map]
    | none =>
      cases h2 : db.get_message_by_id message_id with
      | none =>
        rw [pm_cons_missing p db message_id _ h1 h2,
          pm_cons_missing p db message_id rest h1 h2]
      | some message =>
        cases h3 : message.text with
        | none =>
          rw [pm_cons_skip p db message_id _ message h1 h2 h3,
            pm_cons_skip p db message_id rest message h1 h2 h3, ih db l₂]
        | some t =>
          rw [pm_cons_insert p db message_id _ message t h1 h2 h3,
            pm_cons_insert p db message_id rest message t h1 h2 h3, ih _ l₂]
          cases hq : process_messages p
            (add_processed_message db
              ((process_text p t).to_new_processed_message p message_id
                p.version)).1 rest with
          | mk db₁ res₁ =>
            cases res₁ with
            | ok recs₁ =>
              cases hr : (process_messages p db₁ l₂).2 with
              | ok recs₂ => simp [hr, Except.map]
              | error e => simp [hr, Except.map]
            | error e => simp [Except.map]

/-! ## C1 — re-running analysis for an already-processed pair -/

/-- C1: if the store already holds a record `r` for `(m, version)`,
then batch analysis over any id list containing `m` performs no work at
`m`: the store passes through `m`'s step unchanged, the stored record is
still `r` when `m` is reached, and the batch output contains exactly `r`
at `m`'s position. -/
theorem c1_reprocess_returns_existing (p : NlpProcessor) (db : Db)
    (ids₁ ids₂ : List Int) (m : Int) (r : DbProcessedMessage)
    (h : db.processed m p.version = some r)
    (db₁ : Db) (recs₁ : List DbProcessedMessage)
    (h₁ : process_messages p db ids₁ = (db₁, Except.ok recs₁)) :
    db₁.processed m p.version = some r ∧
    process_messages p db (ids₁ ++ m :: ids₂) =
      ((process_messages p db₁ ids₂).1,
       (process_messages p db₁ ids₂).2.map
         (fun recs₂ => recs₁ ++ r :: recs₂)) := by
  have hpres : db₁.processed m p.version = some r := by
    have hx := pm_preserves_processed p ids₁ db m p.version r h
    rw [h₁] at hx
    exact hx
  refine ⟨hpres, ?_⟩
  rw [pm_append p ids₁ db (m :: ids₂), h₁]
  show ((process_messages p db₁ (m :: ids₂)).1,
    (process_messages p db₁ (m :: ids₂)).2.map (fun recs₂ => recs₁ ++ recs₂)) = _
  rw [pm_cons_existing p db₁ m ids₂ r hpres]
  cases hq : (process_messages p db₁ ids₂).2 with
  | ok recs₂ => simp [hq, Except.map]
  | error e => simp [hq, Except.map]

/-- Witness for `c1_reprocess_returns_existing`: the store `dbExisting`
already holds `recW` for `(1, v1)`, and the singleton batch `[1]`
returns exactly that record with the store untouched. -/
theorem c1_reprocess_returns_existing_witness :
    dbExisting.processed 1 testProc.version = some recW ∧
    process_messages testProc dbExisting [] = (dbExisting, Except.ok []) ∧
    (dbExisting.processed 1 testProc.version = some recW ∧
     process_messages testProc dbExisting ([] ++ 1 :: []) =
       ((process_messages testProc dbExisting []).1,
        (process_messages testProc dbExisting []).2.map
          (fun recs₂ => [] ++ recW :: recs₂))) :=
  ⟨by decide, rfl,
   c1_reprocess_returns_existing testProc dbExisting [] [] 1 recW (by decide)
     dbExisting [] rfl⟩

/-! ## C3 — a missing id aborts the batch -/

/-- C3 (amended): an id whose message row does not exist is *fatal to
the whole batch*: after any successfully processed prefix, reaching the
missing id makes `process_messages` return the not-found error — the ids
after it are never processed and no records are returned (the store
keeps the work done before the failure). -/
theorem c3_missing_id_fatal (p : NlpProcessor) (db : Db)
    (ids₁ ids₂ : List Int) (m : Int)
    (hm : db.messages m = none) (hp : db.processed m p.version = none)
    (db₁ : Db) (recs₁ : List DbProcessedMessage)
    (h₁ : process_messages p db ids₁ = (db₁, Except.ok recs₁)) :
    process_messages p db (ids₁ ++ m :: ids₂) =
      (db₁, Except.error
        ("Message with ID " ++ toString m ++ " not found")) := by
  have hm₁ : db₁.messages m = none := by
    have hx := pm_preserves_messages p ids₁ db
    rw [h₁] at hx
    rw [hx]
    exact hm
  have hp₁ : db₁.processed m p.version = none := by
    have hx := pm_preserves_unprocessed p ids₁ db m p.version hm hp
    rw [h₁] at hx
    exact hx
  rw [pm_append p ids₁ db (m :: ids₂), h₁]
  show ((process_messages p db₁ (m :: ids₂)).1,
    (process_messages p db₁ (m :: ids₂)).2.map (fun recs₂ => recs₁ ++ recs₂)) = _
  rw [pm_cons_missing p db₁ m ids₂ hp₁ hm₁]
  simp [Except.map]

/-- Witness for `c3_missing_id_fatal`: id 2 has no message row in
`dbMissing`, and the batch `[2]` fails with the not-found error. -/
theorem c3_missing_id_fatal_witness :
    dbMissing.messages 2 = none ∧
    dbMissing.processed 2 testProc.version = none ∧
    process_messages testProc dbMissing [] = (dbMissing, Except.ok []) ∧
    process_messages testProc dbMissing ([] ++ 2 :: []) =
      (dbMissing, Except.error
        ("Message with ID " ++ toString (2 : Int) ++ " not found")) :=
  ⟨by decide, by decide, rfl,
   c3_missing_id_fatal testProc dbMissing [] [] 2 (by decide) (by decide)
     dbMissing [] rfl⟩

/-- C3 counterexample to the claim as stated: in `dbMissing`, messages
1 and 3 exist with text but id 2 does not.  The batch `[1, 2, 3]` does
*not* omit the missing id and continue — it returns the not-found error,
and id 3 is left unprocessed. -/
theorem c3_missing_id_counterexample :
    (process_messages testProc dbMissing [1, 2, 3]).2 =
      Except.error "Message with ID 2 not found" ∧
    (process_messages testProc dbMissing [1, 2, 3]).1.processed 3
      testProc.version = none := by
  constructor
  · with_unfolding_all rfl
  · with_unfolding_all rfl

/-! ## C6 — which ids produce a record, and in what order -/

/-- An input id yields a record in the batch output exactly when a
record for it is already stored under the version, or its message row
exists and has text. -/
def yields_record (db : Db) (v : String) (message_id : Int) : Bool :=
  (db.processed message_id v).isSome ||
    (match db.messages message_id with
     | some message => message.text.isSome
     | none => false)

/-- The store invariant `db.rs` maintains: a record stored under key
`(m, v)` references message `m`. -/
def Db.wf (db : Db) : Prop :=
  ∀ (m : Int) (v : String) (r : DbProcessedMessage),
    db.processed m v = some r → r.original_message_id = m

theorem add_wf (db : Db) (np : NewProcessedMessage) (hwf : db.wf) :
    (add_processed_message db np).1.wf := by
  intro m v r hr
  rw [add_processed_message] at hr
  cases hx : db.processed np.original_message_id np.processing_version with
  | some q =>
    rw [hx] at hr
    exact hwf m v r hr
  | none =>
    rw [hx] at hr
    change (if m = np.original_message_id ∧ v = np.processing_version
      then some _ else db.processed m v) = some r at hr
    split at hr
    · next hc =>
      injection hr with hrr
      rw [← hrr]
      exact hc.1.symm
    · exact hwf m v r hr

/-- The record returned by an actual insertion references the key it
was inserted under. -/
theorem add_ret_orig (db : Db) (np : NewProcessedMessage)
    (h : db.processed np.original_message_id np.processing_version = none) :
    (add_processed_message db np).2.original_message_id =
      np.original_message_id := by
  rw [add_processed_message, h]

/-- Inserting a record for a message that exists and has text does not
change which ids yield a record. -/
theorem add_yields_invariant (db : Db) (np : NewProcessedMessage)
    (v : String) (message : DbMessage)
    (hmsg : db.messages np.original_message_id = some message)
    (htext : message.text.isSome = true) :
    ∀ i : Int, yields_record (add_processed_message db np).1 v i =
      yields_record db v i := by
  intro i
  by_cases hi : np.original_message_id = i
  · subst hi
    simp only [yields_record, add_preserves_messages, hmsg, htext,
      Bool.or_true]
  · rw [yields_record, yields_record, add_preserves_messages,
      add_other_processed db np i v hi]

/-- C6 (amended): on success, the batch returns one record per input id
that either already has a stored record under the current version (the
existing record, counted even if the message row has no text) or
resolves to a message with text; ids resolving to text-less messages are
skipped; and the records appear in the order of those ids in the input
list.  (The claim as stated — records only for ids *not already
processed* — fails: already-processed ids contribute their stored
record; see the counterexample.) -/
theorem c6_batch_order (p : NlpProcessor) (ids : List Int) :
    ∀ (db db' : Db) (recs : List DbProcessedMessage),
      Db.wf db →
      process_messages p db ids = (db', Except.ok recs) →
      recs.map (fun q => q.original_message_id) =
        ids.filter (yields_record db p.version) := by
  induction ids with
  | nil =>
    intro db db' recs hwf h
    rw [pm_nil] at h
    injection h with h1 h2
    injection h2 with h2
    rw [← h2]
    rfl
  | cons message_id rest ih =>
    intro db db' recs hwf h
    cases h1 : db.get_processed_message message_id p.version with
    | some existing =>
      rw [pm_cons_existing p db message_id rest existing h1] at h
      cases hq : process_messages p db rest with
      | mk db₁ res₁ =>
        rw [hq] at h
        cases res₁ with
        | error e =>
          injection h with _ h2
          cases h2
        | ok recs₁ =>
          injection h with hdb h2
          injection h2 with h2
          rw [← h2, List.map_cons,
            hwf message_id p.version existing h1,
            List.filter_cons_of_pos (by
              rw [yields_record]
              rw [show db.processed message_id p.version = some existing
                from h1]
              rfl)]
          exact congrArg (List.cons message_id) (ih db db₁ recs₁ hwf hq)
    | none =>
      cases h2 : db.get_message_by_id message_id with
      | none =>
        rw [pm_cons_missing p db message_id rest h1 h2] at h
        injection h with _ hcon
        cases hcon
      | some message =>
        cases h3 : message.text with
        | none =>
          rw [pm_cons_skip p db message_id rest message h1 h2 h3] at h
          rw [List.filter_cons_of_neg (by
            simp [yields_record,
              show db.processed message_id p.version = none from h1,
              show db.messages message_id = some message from h2, h3])]
          exact ih db db' recs hwf h
        | some t =>
          rw [pm_cons_insert p db message_id rest message t h1 h2 h3] at h
          cases hq : process_messages p
            (add_processed_message db
              ((process_text p t).to_new_processed_message p message_id
                p.version)).1 rest with
          | mk db₁ res₁ =>
            rw [hq] at h
            cases res₁ with
            | error e =>
              injection h with _ hcon
              cases hcon
            | ok recs₁ =>
              injection h with hdb hr
              injection hr with hr
              rw [← hr, List.map_cons,
                add_ret_orig db _ (by exact h1)]
              show message_id :: _ = _
              rw [List.filter_cons_of_pos (by
                simp [yields_record,
                  show db.processed message_id p.version = none from h1,
                  show db.messages message_id = some message from h2, h3])]
              refine congrArg (List.cons message_id) ?_
              rw [← List.filter_congr (fun i _ =>
                add_yields_invariant db
                  ((process_text p t).to_new_processed_message p message_id
                    p.version) p.version message (by exact h2)
                  (by rw [h3]; rfl) i)]
              exact ih _ db₁ recs₁
                (add_wf db _ hwf) hq

/-- The concrete store `dbExisting` satisfies the key invariant. -/
theorem dbExisting_wf : Db.wf dbExisting := by
  intro m v r hr
  change (if m = 1 ∧ v = "v1" then some recW else none) = some r at hr
  split at hr
  · next hc =>
    injection hr with hrr
    rw [← hrr]
    exact hc.1.symm
  · cases hr

/-- Witness for `c6_batch_order`: the batch `[1]` over `dbExisting`
returns the stored record for id 1, matching the filter of yielding
ids. -/
theorem c6_batch_order_witness :
    Db.wf dbExisting ∧
    process_messages testProc dbExisting [1] =
      (dbExisting, Except.ok [recW]) ∧
    [recW].map (fun q => q.original_message_id) =
      [(1 : Int)].filter (yields_record dbExisting testProc.version) :=
  ⟨dbExisting_wf, by with_unfolding_all rfl,
   c6_batch_order testProc [1] dbExisting dbExisting [recW] dbExisting_wf
     (by with_unfolding_all rfl)⟩

/-- C6 counterexample to the claim as stated: in `dbExisting`, message
1 has text but is *already processed* under the current version, so the
claim — one record per message that had text and was *not already
processed* — predicts an empty batch result for `[1]`.  The code instead
returns the stored record. -/
theorem c6_counterexample :
    (process_messages testProc dbExisting [1]).2 = Except.ok [recW] ∧
    (dbExisting.processed 1 testProc.version).isSome = true ∧
    (process_messages testProc dbExisting [1]).2 ≠
      Except.ok ([] : List DbProcessedMessage) := by
  refine ⟨by with_unfolding_all rfl, by decide, ?_⟩
  rw [show (process_messages testProc dbExisting [1]).2 = Except.ok [recW]
    from by with_unfolding_all rfl]
  intro hcon
  injection hcon with hcon
  cases hcon
